import Mathlib

/-!
Shallow embedding of the SNEP server from `src/nfc/snep/server.py`
(class `SnepServer`): the per-connection handler `_serve`, the accept
loop `_listen`, and the request helpers `_get_request`, `_put_request`,
`_get_octets`, `_get_records`.

The LLCP socket is modelled by a script of `recv` results consumed in
order; everything the handler writes to the socket (and the final
`close` performed by the `finally:` blocks) is recorded in a trace of
actions.  User callbacks (`get_octets`, `put_octets`) are parameters of
the model; a callback may return octets, raise a typed `SnepError`
carrying a status code, or raise any other exception (`exc`).
-/

namespace Snep

/-- Bytes are naturals; the transport only ever delivers values < 256. -/
abbrev Byte := Nat

/-- A transport frame: the byte string returned by one `socket.recv()`. -/
abbrev Frame := List Byte

/-- Result of one `socket.recv()` call: a byte string, `None`
(connection closed by the peer), or a raised `nfc.llcp.Error`. -/
inductive RecvResult where
  | frame (f : Frame)
  | closed
  | llcpErr
  deriving DecidableEq, Repr

/-- Result of invoking a user callback: a normal return value, a raised
`nfc.snep.SnepError` with its `errno`, or any other raised exception. -/
inductive CbResult (α : Type) where
  | ok (val : α)
  | snepError (errno : Nat)
  | exc
  deriving DecidableEq, Repr

/-- Observable actions of the handler: a `socket.send(f)`, an invocation
of the `get_octets` callback (with the octets and `acceptable_length`
actually passed), an invocation of `put_octets`, or `socket.close()`. -/
inductive Action where
  | send (f : Frame)
  | callGet (octets : Frame) (acceptable : Nat)
  | callPut (octets : Frame)
  | close
  deriving DecidableEq, Repr

/-- How a handler routine terminates: normal `return`, a caught
`nfc.llcp.Error`, an uncaught exception propagating out, or blocked
forever on a `recv`/`accept` that never returns (script exhausted). -/
inductive Outcome where
  | normal
  | llcpError
  | uncaught
  | blocked
  deriving DecidableEq, Repr

/-- Big-endian value of a byte string, as in `struct.unpack`.  Call
sites pass exactly 4 bytes (fields unpacked with format `>L`). -/
def beU32 (l : List Byte) : Nat :=
  l.foldl (fun a b => 256 * a + b) 0

/-- Big-endian 4-byte encoding of `n`, as in `struct.pack(">L", n)`.
Call sites ensure `n < 2^32` (otherwise Python raises `struct.error`,
which the call sites model separately). -/
def u32be (n : Nat) : List Byte :=
  [n / 16777216 % 256, n / 65536 % 256, n / 256 % 256, n % 256]

/-- Server configuration and per-connection state: `send_miu` obtained
from the socket at connection acceptance, `max_acceptable_length` from
construction, and the two octet-level callbacks. -/
structure Cfg where
  miu : Nat
  maxLen : Nat
  getCb : Frame → Nat → CbResult Frame
  putCb : Frame → CbResult Unit

/-- The value of `self.max_acceptable_length` set in `SnepServer.__init__`:
`min(max_acceptable_length, 0xFFFFFFFF)` with default `1000000`. -/
def mkMaxAcceptableLength (kwarg : Option Nat) : Nat :=
  min (kwarg.getD 1000000) 0xFFFFFFFF

/-- Response frame `pack("BBxxxx", 0x10, errno)` for a caught
`SnepError`.  An `errno` that does not fit one byte makes Python's
`pack` raise `struct.error`, modelled as an uncaught exception. -/
def mkErrRsp (errno : Nat) : Except Unit Frame :=
  if errno ≤ 255 then .ok [0x10, errno, 0x00, 0x00, 0x00, 0x00] else .error ()

/-- Success response of `_get_request`:
`pack(">BBL", 0x10, 0x81, len(rsp_octets)) + rsp_octets`.  A length not
fitting the `L` field would raise `struct.error` (unreachable from
`_get_request`, whose success path has `len ≤ acceptable_length < 2^32`). -/
def mkGetSuccessRsp (rsp : Frame) : Except Unit Frame :=
  if rsp.length ≤ 0xFFFFFFFF then .ok ([0x10, 0x81] ++ u32be rsp.length ++ rsp)
  else .error ()

/-- Embedding of `SnepServer._get_request`: unpack `acceptable_length`
from `snep_request[6:10]`, call `get_octets(snep_request[10:],
acceptable_length)`, turn an over-long result into `SnepError(0xC1)`,
catch `SnepError` as a status-only response.  `Except.error` is an
exception propagating out of `_get_request`. -/
def getRequest (getCb : Frame → Nat → CbResult Frame) (req : Frame) :
    Except Unit Frame :=
  let acceptable := beU32 ((req.drop 6).take 4)
  match getCb (req.drop 10) acceptable with
  | .ok rsp =>
      if rsp.length > acceptable then mkErrRsp 0xC1 else mkGetSuccessRsp rsp
  | .snepError e => mkErrRsp e
  | .exc => .error ()

/-- Embedding of `SnepServer._put_request`: call
`put_octets(snep_request[6:])`; a caught `SnepError` gives
`pack("BBxxxx", 0x10, errno)`, a normal return gives
`pack(">BBxxxx", 0x10, 0x81)`. -/
def putRequest (putCb : Frame → CbResult Unit) (req : Frame) :
    Except Unit Frame :=
  match putCb (req.drop 6) with
  | .ok _ => .ok [0x10, 0x81, 0x00, 0x00, 0x00, 0x00]
  | .snepError e => mkErrRsp e
  | .exc => .error ()

/-- Result of the request-assembly loop in `_serve`. -/
inductive AsmResult where
  | done (req : Frame)
  | closedMid
  | llcpErr
  | blocked
  deriving DecidableEq, Repr

/-- Embedding of the assembly loop of `_serve`:
`while len(snep_request) - 6 < length: snep_request += socket.recv()`.
A `None` from `recv` raises `TypeError` (caught: `closedMid`); an LLCP
error propagates (`llcpErr`).  Returns the unconsumed rest of the
script together with the result.  Only entered with
`len(snep_request) >= 6`, so Python's `len(...) - 6` agrees with
truncated subtraction here. -/
def assemble (length : Nat) (req : Frame) :
    List RecvResult → List RecvResult × AsmResult
  | [] => if req.length - 6 < length then ([], .blocked) else ([], .done req)
  | r :: s =>
      if req.length - 6 < length then
        match r with
        | .frame f => assemble length (req ++ f) s
        | .closed => (s, .closedMid)
        | .llcpErr => (s, .llcpErr)
      else (r :: s, .done req)

/-- The offsets loop `for offset in range(send_miu, len(snep_response),
send_miu)` producing the fragments `snep_response[offset:offset+send_miu]`.
`fuel` bounds the iteration count (any `fuel ≥ rsp.length` is exact when
`miu > 0`; Python raises `ValueError` for a zero step). -/
def chunksFrom (rsp : Frame) (miu : Nat) : Nat → Nat → List Frame
  | 0, _ => []
  | fuel + 1, offset =>
      if offset < rsp.length then
        (rsp.drop offset).take miu :: chunksFrom rsp miu fuel (offset + miu)
      else []

/-- The fragments sent after the first one when a response longer than
`send_miu` is continued by the client. -/
def tailFrags (rsp : Frame) (miu : Nat) : List Frame :=
  chunksFrom rsp miu rsp.length miu

/-- The client CONTINUE control frame the server compares the received
frame against: `b"\x10\x00\x00\x00\x00\x00"`. -/
def clientContinueFrame : Frame := [0x10, 0x00, 0x00, 0x00, 0x00, 0x00]

/-- Embedding of the response-sending tail of the `_serve` loop body
("send the snep response, fragment if needed").  `next` is the rest of
the `while True:` loop (applied to the unconsumed script).  A short
response is sent whole; a long one is sent as its first `send_miu`
bytes, then one `recv` is consumed and the remaining fragments are sent
only if that frame equals the client CONTINUE frame (a `None` compares
unequal; an LLCP error propagates). -/
def afterDispatch (cfg : Cfg) (rsp : Frame) (s : List RecvResult)
    (next : List RecvResult → List Action × Outcome) :
    List Action × Outcome :=
  if rsp.length ≤ cfg.miu then
    let k := next s
    (.send rsp :: k.1, k.2)
  else
    match s with
    | [] => ([.send (rsp.take cfg.miu)], .blocked)
    | .llcpErr :: _ => ([.send (rsp.take cfg.miu)], .llcpError)
    | .closed :: s1 =>
        let k := next s1
        (.send (rsp.take cfg.miu) :: k.1, k.2)
    | .frame g :: s1 =>
        if g = clientContinueFrame then
          let k := next s1
          (.send (rsp.take cfg.miu) :: (tailFrags rsp cfg.miu).map .send
            ++ k.1, k.2)
        else
          let k := next s1
          (.send (rsp.take cfg.miu) :: k.1, k.2)

/-- Embedding of the dispatch step of `_serve` ("message complete, now
handle the request"): `opcode == 1 and len(snep_request) >= 10` goes to
`_get_request`, `opcode == 2` to `_put_request`, everything else is
answered `BAD_REQUEST`.  The trace records the callback invocation; an
exception from the callback (or from `pack`) propagates out of the
handler uncaught. -/
def handleComplete (cfg : Cfg) (opcode : Byte) (req : Frame)
    (s : List RecvResult)
    (next : List RecvResult → List Action × Outcome) :
    List Action × Outcome :=
  if opcode = 1 ∧ req.length ≥ 10 then
    let acceptable := beU32 ((req.drop 6).take 4)
    let act := Action.callGet (req.drop 10) acceptable
    match getRequest cfg.getCb req with
    | .ok rsp =>
        let k := afterDispatch cfg rsp s next
        (act :: k.1, k.2)
    | .error _ => ([act], .uncaught)
  else if opcode = 2 then
    let act := Action.callPut (req.drop 6)
    match putRequest cfg.putCb req with
    | .ok rsp =>
        let k := afterDispatch cfg rsp s next
        (act :: k.1, k.2)
    | .error _ => ([act], .uncaught)
  else
    afterDispatch cfg [0x10, 0xC2, 0x00, 0x00, 0x00, 0x00] s next

/-- Embedding of one iteration of the `_serve` loop on a first fragment
`f` with `len(f) >= 6`: unpack `(version, opcode, length)` from
`f[:6]` with format `>BBL`, answer `UNSUPPORTED_VERSION` if the major
version exceeds 1, `REJECT` if `length` exceeds
`max_acceptable_length`, request and assemble remaining fragments if
the information is incomplete, then dispatch. -/
def handleFrame (cfg : Cfg) (f : Frame) (s : List RecvResult)
    (next : List RecvResult → List Action × Outcome) :
    List Action × Outcome :=
  let version := f.getD 0 0
  let opcode := f.getD 1 0
  let length := beU32 ((f.drop 2).take 4)
  if version / 16 > 1 then
    let k := next s
    (.send [0x10, 0xE1, 0x00, 0x00, 0x00, 0x00] :: k.1, k.2)
  else if length > cfg.maxLen then
    let k := next s
    (.send [0x10, 0xFF, 0x00, 0x00, 0x00, 0x00] :: k.1, k.2)
  else if f.length - 6 < length then
    match assemble length f s with
    | (s1, .done req) =>
        let k := handleComplete cfg opcode req s1 next
        (.send [0x10, 0x80, 0x00, 0x00, 0x00, 0x00] :: k.1, k.2)
    | (_, .closedMid) =>
        ([.send [0x10, 0x80, 0x00, 0x00, 0x00, 0x00]], .normal)
    | (_, .llcpErr) =>
        ([.send [0x10, 0x80, 0x00, 0x00, 0x00, 0x00]], .llcpError)
    | (_, .blocked) =>
        ([.send [0x10, 0x80, 0x00, 0x00, 0x00, 0x00]], .blocked)
  else
    handleComplete cfg opcode f s next

/-- Embedding of the `while True:` loop of `SnepServer._serve`.  `fuel`
bounds the number of iterations; every equation below holds for every
fuel value, and exhausting fuel (like exhausting the script) is the
`blocked` outcome — a `recv` that never returns.  A `None` from the
first `recv` (peer closed) or an initial fragment shorter than 6 bytes
(including `b""`, which is falsy) makes the handler return. -/
def serveLoop (cfg : Cfg) : Nat → List RecvResult → List Action × Outcome
  | 0, _ => ([], .blocked)
  | fuel + 1, s =>
      match s with
      | [] => ([], .blocked)
      | .llcpErr :: _ => ([], .llcpError)
      | .closed :: _ => ([], .normal)
      | .frame f :: rest =>
          if f.length < 6 then ([], .normal)
          else handleFrame cfg f rest (serveLoop cfg fuel)

/-- Embedding of `SnepServer._serve` itself: run the loop, then the
`finally:` clause closes the socket on every exit path.  A `blocked`
run never exits, so `close` is never reached there. -/
def serve (cfg : Cfg) (fuel : Nat) (s : List RecvResult) :
    List Action × Outcome :=
  let k := serveLoop cfg fuel s
  match k.2 with
  | .blocked => k
  | _ => (k.1 ++ [.close], k.2)

/-- Result of one `socket.accept()` in the accept loop: a new client
connection, a raised `nfc.llcp.Error`, or any other raised exception. -/
inductive AcceptResult where
  | conn
  | llcpErr
  | otherExc
  deriving DecidableEq, Repr

/-- Embedding of `SnepServer._listen`: accept connections forever,
spawning a handler thread per connection; an `nfc.llcp.Error` is caught
and logged, any other exception propagates; the `finally:` clause
closes the listening socket on either exit.  An exhausted script is an
`accept` that blocks forever. -/
def listenLoop : List AcceptResult → List Action × Outcome
  | [] => ([], .blocked)
  | .conn :: rest => listenLoop rest
  | .llcpErr :: _ => ([.close], .llcpError)
  | .otherExc :: _ => ([.close], .uncaught)

/-- Embedding of the default `SnepServer._get_records`: ignore the
request records and raise `SnepError(0xE0)` (Not Implemented).  `R` is
the (abstract) type of `ndef.Record`. -/
def defaultGetRecords {R : Type} (requestRecords : List R) :
    CbResult (List R) :=
  .snepError 0xE0

/-- Embedding of the default `SnepServer._put_records`: ignore the
request records and return. -/
def defaultPutRecords {R : Type} (requestRecords : List R) :
    CbResult Unit :=
  .ok ()

/-- Embedding of the default `SnepServer._get_octets`, parametric in
the external NDEF codec (`dec` for `ndef.message_decoder`, `enc` for
`ndef.message_encoder`) and in `self.get_records` (possibly
overridden): decode the request octets, call `get_records`, and encode
its result; a `ndef.DecodeError` from the decoder is turned into
`SnepError(0xC2)`, while a `SnepError` or other exception raised by
`get_records` propagates. -/
def defaultGetOctets {R : Type} (dec : Frame → Except Unit (List R))
    (enc : List R → Frame) (getRecords : List R → CbResult (List R))
    (request_octets : Frame) (acceptable_length : Nat) : CbResult Frame :=
  match dec request_octets with
  | .error _ => .snepError 0xC2
  | .ok req_records =>
      match getRecords req_records with
      | .ok rsp_records => .ok (enc rsp_records)
      | .snepError e => .snepError e
      | .exc => .exc

/-- Embedding of the default `SnepServer._put_octets`: decode the
request octets and call `self.put_records`; a decoder `DecodeError`
becomes `SnepError(0xC2)`. -/
def defaultPutOctets {R : Type} (dec : Frame → Except Unit (List R))
    (putRecords : List R → CbResult Unit) (request_octets : Frame) :
    CbResult Unit :=
  match dec request_octets with
  | .error _ => .snepError 0xC2
  | .ok req_records => putRecords req_records

/-- Predicate used in theorem statements: the `recv` fragments `fs`,
appended to the already-received `acc`, carry the request with
information length `L` exactly — every fragment is needed (each partial
accumulation is still shorter than `6 + L`) and the final total is
exactly `6 + L` bytes. -/
def carriesExactly : Frame → List Frame → Nat → Bool
  | acc, [], L => acc.length == 6 + L
  | acc, f :: fs, L =>
      decide (acc.length < 6 + L) && carriesExactly (acc ++ f) fs L

/-- Predicate used in theorem statements: after receiving `acc` and
then every fragment of `fs`, the assembled request is still shorter
than `6 + L` bytes (the assembly loop is still waiting). -/
def stillShort : Frame → List Frame → Nat → Bool
  | acc, [], L => decide (acc.length < 6 + L)
  | acc, f :: fs, L =>
      decide (acc.length < 6 + L) && stillShort (acc ++ f) fs L

/-- An action that invokes one of the two octet-level callbacks. -/
def isCallbackAction : Action → Bool
  | .callGet _ _ => true
  | .callPut _ => true
  | _ => false

/-- A sample configuration used to instantiate theorems on concrete
inputs: `send_miu = 128`, default `max_acceptable_length`, a
`get_octets` returning no octets and a `put_octets` returning
normally. -/
def cfgEx : Cfg where
  miu := 128
  maxLen := mkMaxAcceptableLength none
  getCb := fun _ _ => .ok []
  putCb := fun _ => .ok ()

/-- A sample configuration with `max_acceptable_length = 6`, as in the
spec scenario for length rejection. -/
def cfgMax6 : Cfg where
  miu := 128
  maxLen := mkMaxAcceptableLength (some 6)
  getCb := fun _ _ => .ok []
  putCb := fun _ => .ok ()

/-- A sample configuration with `send_miu = 16`, as in the spec
fragmentation scenario. -/
def cfgMiu16 : Cfg where
  miu := 16
  maxLen := mkMaxAcceptableLength none
  getCb := fun _ _ => .ok []
  putCb := fun _ => .ok ()

/-! Helper lemmas about the fragment loop, the assembly loop, and the
absence of `close` actions inside the serve loop. -/

theorem chunksFrom_join (rsp : Frame) (miu : Nat) (hm : 0 < miu) :
    ∀ fuel offset, rsp.length - offset ≤ fuel * miu →
      rsp.take offset ++ (chunksFrom rsp miu fuel offset).flatten = rsp := by
  intro fuel
  induction fuel with
  | zero =>
      intro offset h
      have hoff : rsp.length ≤ offset := by omega
      simp [chunksFrom, List.take_of_length_le hoff]
  | succ n ih =>
      intro offset h
      by_cases hlt : offset < rsp.length
      · rw [Nat.succ_mul] at h
        have ihh := ih (offset + miu) (by omega)
        rw [List.take_add] at ihh
        simp only [chunksFrom, if_pos hlt, List.flatten_cons]
        simpa [List.append_assoc] using ihh
      · simp [chunksFrom, if_neg hlt,
          List.take_of_length_le (by omega : rsp.length ≤ offset)]

theorem chunksFrom_length_le (rsp : Frame) (miu : Nat) :
    ∀ fuel offset c, c ∈ chunksFrom rsp miu fuel offset → c.length ≤ miu := by
  intro fuel
  induction fuel with
  | zero => intro offset c hc; simp [chunksFrom] at hc
  | succ n ih =>
      intro offset c hc
      by_cases hlt : offset < rsp.length
      · simp only [chunksFrom, if_pos hlt, List.mem_cons] at hc
        rcases hc with hc | hc
        · subst hc; exact (rsp.drop offset).length_take_le miu
        · exact ih _ c hc
      · simp [chunksFrom, if_neg hlt] at hc

theorem tailFrags_join (rsp : Frame) (miu : Nat) (hm : 0 < miu) :
    rsp.take miu ++ (tailFrags rsp miu).flatten = rsp := by
  refine chunksFrom_join rsp miu hm rsp.length miu ?_
  calc rsp.length - miu ≤ rsp.length := Nat.sub_le ..
    _ = rsp.length * 1 := (Nat.mul_one _).symm
    _ ≤ rsp.length * miu := Nat.mul_le_mul_left _ hm

theorem tailFrags_length_le (rsp : Frame) (miu : Nat) :
    ∀ c ∈ tailFrags rsp miu, c.length ≤ miu :=
  fun c hc => chunksFrom_length_le rsp miu rsp.length miu c hc

theorem carriesExactly_length (L : Nat) :
    ∀ (fs : List Frame) (acc : Frame), carriesExactly acc fs L = true →
      (acc ++ fs.flatten).length = 6 + L := by
  intro fs
  induction fs with
  | nil =>
      intro acc h
      simp only [carriesExactly, beq_iff_eq] at h
      simpa using h
  | cons f fs ih =>
      intro acc h
      simp only [carriesExactly, Bool.and_eq_true, decide_eq_true_eq] at h
      have := ih (acc ++ f) h.2
      simpa [List.append_assoc] using this

theorem assemble_carriesExactly (L : Nat) :
    ∀ (fs : List Frame) (acc : Frame) (rest : List RecvResult),
      6 ≤ acc.length → carriesExactly acc fs L = true →
      assemble L acc (fs.map .frame ++ rest) = (rest, .done (acc ++ fs.flatten)) := by
  intro fs
  induction fs with
  | nil =>
      intro acc rest h6 hc
      simp only [carriesExactly, beq_iff_eq] at hc
      have hnot : ¬ (acc.length - 6 < L) := by omega
      cases rest with
      | nil => simp [assemble, hnot]
      | cons r s => simp [assemble, hnot]
  | cons f fs ih =>
      intro acc rest h6 hc
      simp only [carriesExactly, Bool.and_eq_true, decide_eq_true_eq] at hc
      have hlt : acc.length - 6 < L := by omega
      have h6f : 6 ≤ (acc ++ f).length := by simp; omega
      have := ih (acc ++ f) rest h6f hc.2
      simp [assemble, hlt, this, List.append_assoc]

theorem assemble_stillShort (L : Nat) :
    ∀ (fs : List Frame) (acc : Frame) (rest : List RecvResult),
      6 ≤ acc.length → stillShort acc fs L = true →
      assemble L acc (fs.map .frame ++ .closed :: rest) = (rest, .closedMid) := by
  intro fs
  induction fs with
  | nil =>
      intro acc rest h6 hs
      simp only [stillShort, decide_eq_true_eq] at hs
      have hlt : acc.length - 6 < L := by omega
      simp [assemble, hlt]
  | cons f fs ih =>
      intro acc rest h6 hs
      simp only [stillShort, Bool.and_eq_true, decide_eq_true_eq] at hs
      have hlt : acc.length - 6 < L := by omega
      have h6f : 6 ≤ (acc ++ f).length := by simp; omega
      simp [assemble, hlt, ih (acc ++ f) rest h6f hs.2]

theorem afterDispatch_close_not_mem (cfg : Cfg) (rsp : Frame)
    (s : List RecvResult) (next : List RecvResult → List Action × Outcome)
    (hn : ∀ t, Action.close ∉ (next t).1) :
    Action.close ∉ (afterDispatch cfg rsp s next).1 := by
  unfold afterDispatch
  split
  · simp [hn s]
  · match s with
    | [] => simp
    | .llcpErr :: _ => simp
    | .closed :: s1 => simp [hn s1]
    | .frame g :: s1 =>
        by_cases hg : g = clientContinueFrame <;> simp [hg, hn s1]

theorem handleComplete_close_not_mem (cfg : Cfg) (opcode : Byte)
    (req : Frame) (s : List RecvResult)
    (next : List RecvResult → List Action × Outcome)
    (hn : ∀ t, Action.close ∉ (next t).1) :
    Action.close ∉ (handleComplete cfg opcode req s next).1 := by
  unfold handleComplete
  split
  · match hget : getRequest cfg.getCb req with
    | .ok rsp => simp [afterDispatch_close_not_mem cfg rsp s next hn]
    | .error e => simp
  · split
    · match hput : putRequest cfg.putCb req with
      | .ok rsp => simp [afterDispatch_close_not_mem cfg rsp s next hn]
      | .error e => simp
    · exact afterDispatch_close_not_mem cfg _ s next hn

theorem handleFrame_close_not_mem (cfg : Cfg) (f : Frame)
    (s : List RecvResult) (next : List RecvResult → List Action × Outcome)
    (hn : ∀ t, Action.close ∉ (next t).1) :
    Action.close ∉ (handleFrame cfg f s next).1 := by
  simp only [handleFrame]
  split
  · simp [hn s]
  · split
    · simp [hn s]
    · split
      · match hasm : assemble (beU32 ((f.drop 2).take 4)) f s with
        | (s1, .done req) =>
            simpa [hasm] using
              handleComplete_close_not_mem cfg (f.getD 1 0) req s1 next hn
        | (s1, .closedMid) => simp [hasm]
        | (s1, .llcpErr) => simp [hasm]
        | (s1, .blocked) => simp [hasm]
      · exact handleComplete_close_not_mem cfg _ f s next hn

theorem serveLoop_close_not_mem (cfg : Cfg) :
    ∀ fuel s, Action.close ∉ (serveLoop cfg fuel s).1 := by
  intro fuel
  induction fuel with
  | zero => intro s; simp [serveLoop]
  | succ n ih =>
      intro s
      match s with
      | [] => simp [serveLoop]
      | .llcpErr :: _ => simp [serveLoop]
      | .closed :: _ => simp [serveLoop]
      | .frame f :: rest =>
          by_cases hf : f.length < 6
          · simp [serveLoop, hf]
          · simpa [serveLoop, hf] using
              handleFrame_close_not_mem cfg f rest (serveLoop cfg n) ih

theorem beU32_foldl_lt :
    ∀ (l : List Nat) (a : Nat), (∀ b ∈ l, b < 256) →
      l.foldl (fun x b => 256 * x + b) a < (a + 1) * 256 ^ l.length := by
  intro l
  induction l with
  | nil => intro a _; simpa using Nat.lt_succ_self a
  | cons b l ih =>
      intro a hb
      have hb0 : b < 256 := hb b (List.mem_cons_self ..)
      have h1 := ih (256 * a + b) (fun x hx => hb x (List.mem_cons_of_mem _ hx))
      have hstep : 256 * a + b + 1 ≤ (a + 1) * 256 := by omega
      have h2 : (256 * a + b + 1) * 256 ^ l.length
          ≤ ((a + 1) * 256) * 256 ^ l.length :=
        Nat.mul_le_mul hstep (Nat.le_refl (256 ^ l.length))
      calc (b :: l).foldl (fun x c => 256 * x + c) a
          = l.foldl (fun x c => 256 * x + c) (256 * a + b) := rfl
        _ < (256 * a + b + 1) * 256 ^ l.length := h1
        _ ≤ ((a + 1) * 256) * 256 ^ l.length := h2
        _ = (a + 1) * 256 ^ (b :: l).length := by
            simp [List.length_cons, Nat.pow_succ]; ring

theorem beU32_le_u32_max (l : List Nat) (hb : ∀ b ∈ l, b < 256)
    (hlen : l.length ≤ 4) : beU32 l ≤ 0xFFFFFFFF := by
  have h1 : beU32 l < 1 * 256 ^ l.length := by
    simpa using beU32_foldl_lt l 0 hb
  have h2 : (256 : Nat) ^ l.length ≤ 256 ^ 4 :=
    Nat.pow_le_pow_right (by omega) hlen
  simp only [Nat.one_mul] at h1
  have h3 : (256 : Nat) ^ 4 = 0xFFFFFFFF + 1 := by norm_num
  omega

/-- C3: a request whose version byte has major nibble greater than 1 is
answered with exactly the single frame `10 E1 00 00 00 00`, no callback
is invoked for it, and the handler loop continues on the remaining
script. -/
theorem C3_unsupported_version (cfg : Cfg) (fuel : Nat) (f : Frame)
    (rest : List RecvResult) (h6 : 6 ≤ f.length)
    (hv : f.getD 0 0 / 16 > 1) :
    serveLoop cfg (fuel + 1) (.frame f :: rest)
      = (Action.send [0x10, 0xE1, 0x00, 0x00, 0x00, 0x00]
           :: (serveLoop cfg fuel rest).1,
         (serveLoop cfg fuel rest).2) := by
  have hn : ¬ f.length < 6 := by omega
  simp only [serveLoop]
  rw [if_neg hn]
  simp only [handleFrame]
  rw [if_pos hv]

/-- Witness for C3 at the spec's concrete scenario: the request
`20 01 00 00 00 07 00 00 04 00 D0 00 00` is answered
`10 E1 00 00 00 00` and the loop continues. -/
theorem C3_unsupported_version_witness :
    serveLoop cfgEx 1
        [.frame [0x20, 0x01, 0x00, 0x00, 0x00, 0x07,
                 0x00, 0x00, 0x04, 0x00, 0xD0, 0x00, 0x00]]
      = (Action.send [0x10, 0xE1, 0x00, 0x00, 0x00, 0x00]
           :: (serveLoop cfgEx 0 []).1,
         (serveLoop cfgEx 0 []).2) :=
  C3_unsupported_version cfgEx 0 _ [] (by decide) (by decide)

/-- C4: a request with acceptable major version whose header length
field exceeds `max_acceptable_length` is answered with exactly the
frame `10 FF 00 00 00 00`; no callback runs, the remaining script
(including any pending fragments of that request) is left untouched,
and the loop continues on it. -/
theorem C4_length_reject (cfg : Cfg) (fuel : Nat) (f : Frame)
    (rest : List RecvResult) (h6 : 6 ≤ f.length)
    (hv : f.getD 0 0 / 16 ≤ 1)
    (hl : beU32 ((f.drop 2).take 4) > cfg.maxLen) :
    serveLoop cfg (fuel + 1) (.frame f :: rest)
      = (Action.send [0x10, 0xFF, 0x00, 0x00, 0x00, 0x00]
           :: (serveLoop cfg fuel rest).1,
         (serveLoop cfg fuel rest).2) := by
  have hn : ¬ f.length < 6 := by omega
  have hv2 : ¬ f.getD 0 0 / 16 > 1 := not_lt.mpr hv
  simp only [serveLoop]
  rw [if_neg hn]
  simp only [handleFrame]
  rw [if_neg hv2, if_pos hl]

/-- Witness for C4 at the spec's concrete scenario: a server with
`max_acceptable_length = 6` rejects a GET with length 7 with
`10 FF 00 00 00 00`. -/
theorem C4_length_reject_witness :
    serveLoop cfgMax6 1
        [.frame [0x10, 0x01, 0x00, 0x00, 0x00, 0x07,
                 0x00, 0x00, 0x04, 0x00, 0xD0, 0x00, 0x00]]
      = (Action.send [0x10, 0xFF, 0x00, 0x00, 0x00, 0x00]
           :: (serveLoop cfgMax6 0 []).1,
         (serveLoop cfgMax6 0 []).2) :=
  C4_length_reject cfgMax6 0 _ [] (by decide) (by decide) (by decide)

/-- C5: `_get_request` reads `acceptable_length` from bytes 6..10 of
the request and calls `get_octets`; a result of at most
`acceptable_length` octets yields the response
`10 81 <len BE u32> <octets>`, a longer result yields exactly the
EXCESS_DATA frame `10 C1 00 00 00 00`. -/
theorem C5_get_response_assembly (getCb : Frame → Nat → CbResult Frame)
    (req rsp : Frame) (hbytes : ∀ b ∈ req, b < 256)
    (hok : getCb (req.drop 10) (beU32 ((req.drop 6).take 4)) = .ok rsp) :
    (rsp.length ≤ beU32 ((req.drop 6).take 4) →
       getRequest getCb req = .ok ([0x10, 0x81] ++ u32be rsp.length ++ rsp))
    ∧ (rsp.length > beU32 ((req.drop 6).take 4) →
       getRequest getCb req
         = .ok [0x10, 0xC1, 0x00, 0x00, 0x00, 0x00]) := by
  constructor
  · intro hle
    have hA : beU32 ((req.drop 6).take 4) ≤ 0xFFFFFFFF := by
      refine beU32_le_u32_max _ ?_ ((req.drop 6).length_take_le 4)
      intro b hbmem
      exact hbytes b (List.mem_of_mem_drop (List.mem_of_mem_take hbmem))
    have hr : rsp.length ≤ 0xFFFFFFFF := le_trans hle hA
    simp [getRequest, hok, mkGetSuccessRsp, Nat.not_lt.2 hle, hr]
  · intro hgt
    simp [getRequest, hok, mkErrRsp, hgt]

/-- Witness for C5 on the spec's default GET scenario: request
`10 01 00 00 00 07 00 00 04 00 D0 00 00`, a `get_octets` returning the
3-octet empty record, response `10 81 00 00 00 03 D0 00 00`. -/
theorem C5_get_response_assembly_witness :
    getRequest (fun _ _ => .ok [0xD0, 0x00, 0x00])
        [0x10, 0x01, 0x00, 0x00, 0x00, 0x07,
         0x00, 0x00, 0x04, 0x00, 0xD0, 0x00, 0x00]
      = .ok ([0x10, 0x81] ++ u32be ([0xD0, 0x00, 0x00] : Frame).length
          ++ [0xD0, 0x00, 0x00]) :=
  (C5_get_response_assembly _ _ _ (by decide) (by decide)).1 (by decide)

/-- C6 counterexample: the claim's "code is 0x81 (SUCCESS) ... if and
only if put_octets returned without raising" fails when the callback
raises `SnepError(0x81)`: the response is the SUCCESS frame although
the callback raised. -/
theorem C6_put_counterexample :
    putRequest (fun _ => .snepError 0x81) [0x10, 0x02, 0x00, 0x00, 0x00, 0x00]
        = .ok [0x10, 0x81, 0x00, 0x00, 0x00, 0x00]
      ∧ (fun _ => CbResult.snepError 0x81 : Frame → CbResult Unit)
          (([0x10, 0x02, 0x00, 0x00, 0x00, 0x00] : Frame).drop 6)
          ≠ .ok () :=
  ⟨rfl, by decide⟩

/-- C6 amended: a PUT response is `10 e 00 00 00 00` when `put_octets`
raises `SnepError(e)` and `10 81 00 00 00 00` when it returns; a code
`e ≠ 0x81` occurs iff the callback raised `SnepError(e)`, while the
SUCCESS code 0x81 arises from a normal return or from a raised
`SnepError(0x81)`; a decode failure in the default `put_octets` yields
code 0xC2. -/
theorem C6_put_status_translation (putCb : Frame → CbResult Unit)
    (req : Frame) :
    (∀ e : Nat, e ≤ 255 → putCb (req.drop 6) = .snepError e →
        putRequest putCb req = .ok [0x10, e, 0x00, 0x00, 0x00, 0x00])
    ∧ (putCb (req.drop 6) = .ok () →
        putRequest putCb req = .ok [0x10, 0x81, 0x00, 0x00, 0x00, 0x00])
    ∧ (∀ e : Nat, e ≤ 255 → e ≠ 0x81 →
        (putRequest putCb req = .ok [0x10, e, 0x00, 0x00, 0x00, 0x00]
          ↔ putCb (req.drop 6) = .snepError e))
    ∧ (putRequest putCb req = .ok [0x10, 0x81, 0x00, 0x00, 0x00, 0x00]
          ↔ (putCb (req.drop 6) = .ok ()
              ∨ putCb (req.drop 6) = .snepError 0x81))
    ∧ (∀ (R : Type) (dec : Frame → Except Unit (List R))
          (pr : List R → CbResult Unit),
        dec (req.drop 6) = .error () →
        putRequest (defaultPutOctets dec pr) req
          = .ok [0x10, 0xC2, 0x00, 0x00, 0x00, 0x00]) := by
  refine ⟨?_, ?_, ?_, ?_, ?_⟩
  · intro e he hcb
    simp [putRequest, hcb, mkErrRsp, he]
  · intro hcb
    simp [putRequest, hcb]
  · intro e he hne
    cases h : putCb (req.drop 6) with
    | ok v =>
        cases v
        simp only [putRequest, h]
        constructor
        · intro heq
          exfalso
          have : (129 : Nat) = e := by
            have := (Except.ok.injEq _ _).mp heq
            simpa using this
          omega
        · intro heq; exact absurd heq (by simp)
    | snepError e2 =>
        by_cases h255 : e2 ≤ 255
        · simp only [putRequest, h, mkErrRsp, if_pos h255]
          constructor
          · intro heq
            have : e2 = e := by
              have := (Except.ok.injEq _ _).mp heq
              simpa using this
            rw [this]
          · intro heq
            have : e2 = e := by
              have := (CbResult.snepError.injEq _ _).mp heq.symm
              omega
            rw [this]
        · simp only [putRequest, h, mkErrRsp, if_neg h255]
          constructor
          · intro heq; exact absurd heq (by simp)
          · intro heq
            have : e2 = e := by
              have := (CbResult.snepError.injEq _ _).mp heq.symm
              omega
            omega
    | exc =>
        simp [putRequest, h]
  · cases h : putCb (req.drop 6) with
    | ok v => cases v; simp [putRequest, h]
    | snepError e2 =>
        by_cases h255 : e2 ≤ 255
        · simp only [putRequest, h, mkErrRsp, if_pos h255]
          constructor
          · intro heq
            have : e2 = 129 := by
              have := (Except.ok.injEq _ _).mp heq
              simpa using this
            right; rw [this]
          · rintro (heq | heq)
            · exact absurd heq (by simp)
            · have : e2 = 129 := by
                have := (CbResult.snepError.injEq _ _).mp heq.symm
                omega
              rw [this]
        · simp only [putRequest, h, mkErrRsp, if_neg h255]
          constructor
          · intro heq; exact absurd heq (by simp)
          · rintro (heq | heq)
            · exact absurd heq (by simp)
            · have : e2 = 129 := by
                have := (CbResult.snepError.injEq _ _).mp heq.symm
                omega
              omega
    | exc => simp [putRequest, h]
  · intro R dec pr hdec
    simp [putRequest, defaultPutOctets, hdec, mkErrRsp]

/-- Witness for the amended C6: a callback raising `SnepError(0xC2)`
(as the default `put_octets` does on NDEF decode failure) produces
exactly `10 C2 00 00 00 00`. -/
theorem C6_put_status_translation_witness :
    putRequest (fun _ => .snepError 0xC2) [0x10, 0x02, 0x00, 0x00, 0x00, 0x00]
      = .ok [0x10, 0xC2, 0x00, 0x00, 0x00, 0x00] :=
  (C6_put_status_translation (fun _ => .snepError 0xC2)
      [0x10, 0x02, 0x00, 0x00, 0x00, 0x00]).1 0xC2 (by decide) (by decide)

/-- C7: the default `get_octets` decodes the request octets, calls the
(possibly overridden) `get_records`, and returns the encoding of its
result; with the default `get_records` it yields `SnepError(0xE0)`, so
a GET handled by an all-default server is answered with exactly
`10 E0 00 00 00 00`. -/
theorem C7_default_callback_chain (R : Type)
    (dec : Frame → Except Unit (List R)) (enc : List R → Frame)
    (gr : List R → CbResult (List R)) (req octets : Frame)
    (acceptable : Nat) (recs recs2 : List R) :
    (dec octets = .ok recs → gr recs = .ok recs2 →
       defaultGetOctets dec enc gr octets acceptable = .ok (enc recs2))
    ∧ (dec octets = .ok recs →
       defaultGetOctets dec enc defaultGetRecords octets acceptable
         = .snepError 0xE0)
    ∧ (dec (req.drop 10) = .ok recs →
       getRequest (defaultGetOctets dec enc defaultGetRecords) req
         = .ok [0x10, 0xE0, 0x00, 0x00, 0x00, 0x00]) := by
  refine ⟨?_, ?_, ?_⟩
  · intro hdec hgr
    simp [defaultGetOctets, hdec, hgr]
  · intro hdec
    simp [defaultGetOctets, hdec, defaultGetRecords]
  · intro hdec
    simp [getRequest, defaultGetOctets, hdec, defaultGetRecords, mkErrRsp]

/-- Witness for C7 with a trivial codec on the spec's default GET: the
all-default server's `_get_request` answers `10 E0 00 00 00 00`. -/
theorem C7_default_callback_chain_witness :
    getRequest
        (defaultGetOctets (fun _ => .ok ([] : List Unit)) (fun _ => [])
          defaultGetRecords)
        [0x10, 0x01, 0x00, 0x00, 0x00, 0x07,
         0x00, 0x00, 0x04, 0x00, 0xD0, 0x00, 0x00]
      = .ok [0x10, 0xE0, 0x00, 0x00, 0x00, 0x00] :=
  (C7_default_callback_chain Unit (fun _ => .ok []) (fun _ => [])
      defaultGetRecords
      [0x10, 0x01, 0x00, 0x00, 0x00, 0x07,
       0x00, 0x00, 0x04, 0x00, 0xD0, 0x00, 0x00]
      [] 0 [] []).2.2 rfl

/-- C8: with the message complete, dispatch is decided solely by the
opcode byte and the total size: opcode 1 with at least 10 bytes enters
the GET path (first action: the `get_octets` invocation), opcode 2
enters the PUT path (first action: the `put_octets` invocation), and
every other combination — CONTINUE (0x00), REJECT (0x7F), a short GET —
is answered with exactly `10 C2 00 00 00 00` while the loop
continues. -/
theorem C8_dispatch_by_opcode (cfg : Cfg) (req : Frame)
    (s : List RecvResult) (next : List RecvResult → List Action × Outcome)
    (hmiu : 6 ≤ cfg.miu) :
    (req.length ≥ 10 →
       (handleComplete cfg 1 req s next).1.head?
         = some (.callGet (req.drop 10) (beU32 ((req.drop 6).take 4))))
    ∧ ((handleComplete cfg 2 req s next).1.head?
         = some (.callPut (req.drop 6)))
    ∧ (∀ opcode : Nat, (opcode = 1 → req.length < 10) → opcode ≠ 2 →
        handleComplete cfg opcode req s next
          = (Action.send [0x10, 0xC2, 0x00, 0x00, 0x00, 0x00] :: (next s).1,
             (next s).2)) := by
  refine ⟨?_, ?_, ?_⟩
  · intro h10
    cases hg : getRequest cfg.getCb req <;>
      simp [handleComplete, hg, h10]
  · cases hp : putRequest cfg.putCb req <;>
      simp [handleComplete, hp]
  · intro opcode h1 h2
    have hc1 : ¬ (opcode = 1 ∧ req.length ≥ 10) := by
      rintro ⟨rfl, hge⟩
      exact absurd hge (not_le.mpr (h1 rfl))
    simp only [handleComplete]
    rw [if_neg hc1, if_neg h2]
    simp [afterDispatch, hmiu]

/-- Witness for C8: opcode 0 (CONTINUE as a request opcode) is answered
`10 C2 00 00 00 00` and the loop continues. -/
theorem C8_dispatch_by_opcode_witness :
    handleComplete cfgEx 0 [0x10, 0x00, 0x00, 0x00, 0x00, 0x00] []
        (serveLoop cfgEx 0)
      = (Action.send [0x10, 0xC2, 0x00, 0x00, 0x00, 0x00]
           :: (serveLoop cfgEx 0 []).1,
         (serveLoop cfgEx 0 []).2) :=
  (C8_dispatch_by_opcode cfgEx [0x10, 0x00, 0x00, 0x00, 0x00, 0x00] []
      (serveLoop cfgEx 0) (by decide)).2.2 0 (by omega) (by decide)

/-- C2: for a response longer than `send_miu` the server sends exactly
the first `send_miu` bytes, then reads one frame; exactly when that
frame is `10 00 00 00 00 00` it sends the remaining fragments, each of
at most `send_miu` bytes, whose concatenation with the first fragment
is the response bit-for-bit; any other frame causes no further
fragments while the loop continues. -/
theorem C2_response_fragmentation (cfg : Cfg) (rsp : Frame)
    (s1 : List RecvResult) (next : List RecvResult → List Action × Outcome)
    (g : Frame) (hm : 0 < cfg.miu) (hl : cfg.miu < rsp.length) :
    (afterDispatch cfg rsp (.frame clientContinueFrame :: s1) next
       = (Action.send (rsp.take cfg.miu)
            :: (tailFrags rsp cfg.miu).map .send ++ (next s1).1,
          (next s1).2))
    ∧ rsp.take cfg.miu ++ (tailFrags rsp cfg.miu).flatten = rsp
    ∧ (∀ frag ∈ tailFrags rsp cfg.miu, frag.length ≤ cfg.miu)
    ∧ (g ≠ clientContinueFrame →
        afterDispatch cfg rsp (.frame g :: s1) next
          = (Action.send (rsp.take cfg.miu) :: (next s1).1, (next s1).2)) := by
  have hnotle : ¬ rsp.length ≤ cfg.miu := not_le.mpr hl
  refine ⟨?_, tailFrags_join rsp cfg.miu hm, tailFrags_length_le rsp cfg.miu, ?_⟩
  · simp [afterDispatch, hnotle]
  · intro hg
    simp [afterDispatch, hnotle, hg]

/-- Witness for C2 at the spec's fragmentation scenario: `send_miu =
16`, the 23-byte response `10 81 00 00 00 11 D1 01 0D 54 02 65 6E 30 31
32 33 34 35 36 37 38 39`, client CONTINUE. -/
theorem C2_response_fragmentation_witness :
    afterDispatch cfgMiu16
        [0x10, 0x81, 0x00, 0x00, 0x00, 0x11, 0xD1, 0x01, 0x0D, 0x54, 0x02,
         0x65, 0x6E, 0x30, 0x31, 0x32, 0x33, 0x34, 0x35, 0x36, 0x37, 0x38,
         0x39]
        (.frame clientContinueFrame :: []) (serveLoop cfgMiu16 0)
      = (Action.send
            (([0x10, 0x81, 0x00, 0x00, 0x00, 0x11, 0xD1, 0x01, 0x0D, 0x54,
               0x02, 0x65, 0x6E, 0x30, 0x31, 0x32, 0x33, 0x34, 0x35, 0x36,
               0x37, 0x38, 0x39] : Frame).take cfgMiu16.miu)
           :: (tailFrags
                [0x10, 0x81, 0x00, 0x00, 0x00, 0x11, 0xD1, 0x01, 0x0D, 0x54,
                 0x02, 0x65, 0x6E, 0x30, 0x31, 0x32, 0x33, 0x34, 0x35, 0x36,
                 0x37, 0x38, 0x39] cfgMiu16.miu).map .send
             ++ (serveLoop cfgMiu16 0 []).1,
         (serveLoop cfgMiu16 0 []).2) :=
  (C2_response_fragmentation cfgMiu16 _ [] (serveLoop cfgMiu16 0) []
      (by decide) (by decide)).1

/-- C10: after the first fragment of an over-long response, the next
inbound frame is consumed by the fragmentation wait: a frame other than
`10 00 00 00 00 00` — whatever its content, including a well-formed new
request — is discarded without any response, and the handler reads the
following script element as the next request. -/
theorem C10_wait_consumes_frame (cfg : Cfg) (rsp : Frame) (fuel : Nat)
    (s1 : List RecvResult) (g : Frame) (hl : cfg.miu < rsp.length)
    (hg : g ≠ clientContinueFrame) :
    afterDispatch cfg rsp (.frame g :: s1) (serveLoop cfg fuel)
      = (Action.send (rsp.take cfg.miu) :: (serveLoop cfg fuel s1).1,
         (serveLoop cfg fuel s1).2) := by
  have hnotle : ¬ rsp.length ≤ cfg.miu := not_le.mpr hl
  simp [afterDispatch, hnotle, hg]

/-- Witness for C10: the consumed frame is itself a well-formed GET
request; it elicits no response and the handler continues with the
following frame. -/
theorem C10_wait_consumes_frame_witness :
    afterDispatch cfgMiu16
        [0x10, 0x81, 0x00, 0x00, 0x00, 0x11, 0xD1, 0x01, 0x0D, 0x54, 0x02,
         0x65, 0x6E, 0x30, 0x31, 0x32, 0x33, 0x34, 0x35, 0x36, 0x37, 0x38,
         0x39]
        (.frame [0x10, 0x01, 0x00, 0x00, 0x00, 0x07,
                 0x00, 0x00, 0x04, 0x00, 0xD0, 0x00, 0x00] :: [.closed])
        (serveLoop cfgMiu16 1)
      = (Action.send
            (([0x10, 0x81, 0x00, 0x00, 0x00, 0x11, 0xD1, 0x01, 0x0D, 0x54,
               0x02, 0x65, 0x6E, 0x30, 0x31, 0x32, 0x33, 0x34, 0x35, 0x36,
               0x37, 0x38, 0x39] : Frame).take cfgMiu16.miu)
           :: (serveLoop cfgMiu16 1 [.closed]).1,
         (serveLoop cfgMiu16 1 [.closed]).2) :=
  C10_wait_consumes_frame cfgMiu16 _ 1 [.closed] _ (by decide) (by decide)

/-- C9: on every exit path of the per-connection handler (`_serve`) and
of the accept loop (`_listen`) — normal return, a caught or logged LLCP
error, or an uncaught exception — the routine's socket is closed
exactly once, as the last action before termination.  A run that blocks
forever on `recv`/`accept` never exits and is excluded. -/
theorem C9_close_on_all_exits :
    (∀ (cfg : Cfg) (fuel : Nat) (s : List RecvResult),
        (serve cfg fuel s).2 ≠ .blocked →
        (serve cfg fuel s).1.count .close = 1
          ∧ (serve cfg fuel s).1.getLast? = some .close)
    ∧ (∀ a : List AcceptResult, (listenLoop a).2 ≠ .blocked →
        (listenLoop a).1.count .close = 1
          ∧ (listenLoop a).1.getLast? = some .close) := by
  constructor
  · intro cfg fuel s h
    have hnc := serveLoop_close_not_mem cfg fuel s
    unfold serve at h ⊢
    rcases hk : serveLoop cfg fuel s with ⟨as, o⟩
    rw [hk] at h hnc
    have hnc2 : Action.close ∉ as := hnc
    cases o with
    | blocked => exact absurd rfl h
    | normal =>
        exact ⟨by simp [List.count_append, List.count_eq_zero.2 hnc2],
               by simp [List.getLast?_concat]⟩
    | llcpError =>
        exact ⟨by simp [List.count_append, List.count_eq_zero.2 hnc2],
               by simp [List.getLast?_concat]⟩
    | uncaught =>
        exact ⟨by simp [List.count_append, List.count_eq_zero.2 hnc2],
               by simp [List.getLast?_concat]⟩
  · intro a
    induction a with
    | nil => intro h; exact absurd rfl h
    | cons r rest ih =>
        cases r with
        | conn =>
            intro h
            have h2 : (listenLoop rest).2 ≠ .blocked := by
              simpa [listenLoop] using h
            simpa [listenLoop] using ih h2
        | llcpErr => intro _; exact ⟨by simp [listenLoop], by simp [listenLoop]⟩
        | otherExc => intro _; exact ⟨by simp [listenLoop], by simp [listenLoop]⟩

/-- Witness for C9: a handler run ending on peer close, and an accept
loop ending on an LLCP error, each close their socket once and last. -/
theorem C9_close_on_all_exits_witness :
    ((serve cfgEx 1 [RecvResult.closed]).1.count .close = 1
      ∧ (serve cfgEx 1 [RecvResult.closed]).1.getLast? = some .close)
    ∧ ((listenLoop [AcceptResult.llcpErr]).1.count .close = 1
      ∧ (listenLoop [AcceptResult.llcpErr]).1.getLast? = some .close) :=
  ⟨C9_close_on_all_exits.1 cfgEx 1 [RecvResult.closed] (by decide),
   C9_close_on_all_exits.2 [AcceptResult.llcpErr] (by decide)⟩

/-- C1 counterexample: a GET whose header declares information length
L = 7, carried in two fragments.  The handler sends CONTINUE and
dispatches exactly once, but `get_octets` receives
`snep_request[10:]` — 3 bytes, not the L = 7 information bytes (the
4-byte `acceptable_length` prefix of the information field is consumed
by `_get_request`). -/
theorem C1_get_length_counterexample :
    beU32 ((([0x10, 0x01, 0x00, 0x00, 0x00, 0x07] : Frame).drop 2).take 4) = 7
    ∧ (serveLoop cfgEx 2
        [.frame [0x10, 0x01, 0x00, 0x00, 0x00, 0x07],
         .frame [0x00, 0x00, 0x04, 0x00, 0xD0, 0x00, 0x00]]).1
      = [Action.send [0x10, 0x80, 0x00, 0x00, 0x00, 0x00],
         Action.callGet [0xD0, 0x00, 0x00] 0x400,
         Action.send [0x10, 0x81, 0x00, 0x00, 0x00, 0x00]]
    ∧ ([0xD0, 0x00, 0x00] : Frame).length ≠ 7 := by decide

theorem afterDispatch_mem (cfg : Cfg) (rsp : Frame) (s : List RecvResult)
    (next : List RecvResult → List Action × Outcome) (a : Action)
    (ha : a ∈ (afterDispatch cfg rsp s next).1) :
    (∃ f, a = .send f) ∨ ∃ t, a ∈ (next t).1 := by
  unfold afterDispatch at ha
  split at ha
  · rcases List.mem_cons.mp ha with rfl | h
    · exact Or.inl ⟨_, rfl⟩
    · exact Or.inr ⟨_, h⟩
  · split at ha
    · exact Or.inl ⟨_, List.mem_singleton.mp ha⟩
    · exact Or.inl ⟨_, List.mem_singleton.mp ha⟩
    · rcases List.mem_cons.mp ha with rfl | h
      · exact Or.inl ⟨_, rfl⟩
      · exact Or.inr ⟨_, h⟩
    · split at ha
      · rcases List.mem_cons.mp ha with rfl | h
        · exact Or.inl ⟨_, rfl⟩
        · rcases List.mem_append.mp h with h2 | h2
          · rcases List.mem_map.mp h2 with ⟨c, _, rfl⟩
            exact Or.inl ⟨_, rfl⟩
          · exact Or.inr ⟨_, h2⟩
      · rcases List.mem_cons.mp ha with rfl | h
        · exact Or.inl ⟨_, rfl⟩
        · exact Or.inr ⟨_, h⟩

theorem afterDispatch_no_calls (cfg : Cfg) (rsp : Frame)
    (s : List RecvResult) :
    (afterDispatch cfg rsp s (fun _ => ([], .normal))).1.countP
        (fun a => isCallbackAction a) = 0 := by
  rw [List.countP_eq_zero]
  intro a ha
  rcases afterDispatch_mem cfg rsp s _ a ha with ⟨f, rfl⟩ | ⟨t, hmem⟩
  · simp [isCallbackAction]
  · simp at hmem

/-- C1 amended: when the initial fragment carries fewer than L
information bytes (L from the header), the handler sends the CONTINUE
status frame `10 80 00 00 00 00` and accumulates `recv()` results
until at least L information bytes are present, then dispatches exactly
once: for opcode PUT, `put_octets` receives exactly L bytes (the
information field); for opcode GET, `get_octets` receives exactly L − 4
bytes (the information after the 4-byte `acceptable_length` prefix)
together with the `acceptable_length` value; if `recv()` returns `None`
during assembly the handler returns without dispatching. -/
theorem C1_assembly_and_dispatch (cfg : Cfg) (fuel : Nat) (f0 : Frame)
    (fs : List Frame) (rest : List RecvResult)
    (h6 : 6 ≤ f0.length) (hv : f0.getD 0 0 / 16 ≤ 1)
    (hml : beU32 ((f0.drop 2).take 4) ≤ cfg.maxLen)
    (hshort : f0.length < 6 + beU32 ((f0.drop 2).take 4))
    (hcar : carriesExactly f0 fs (beU32 ((f0.drop 2).take 4)) = true) :
    (serveLoop cfg (fuel + 1) (.frame f0 :: (fs.map .frame ++ rest))
       = (Action.send [0x10, 0x80, 0x00, 0x00, 0x00, 0x00]
            :: (handleComplete cfg (f0.getD 1 0) (f0 ++ fs.flatten) rest
                 (serveLoop cfg fuel)).1,
          (handleComplete cfg (f0.getD 1 0) (f0 ++ fs.flatten) rest
            (serveLoop cfg fuel)).2))
    ∧ ((f0 ++ fs.flatten).drop 6).length = beU32 ((f0.drop 2).take 4)
    ∧ ((f0 ++ fs.flatten).drop 10).length = beU32 ((f0.drop 2).take 4) - 4
    ∧ ((handleComplete cfg 2 (f0 ++ fs.flatten) rest
          (serveLoop cfg fuel)).1.head?
        = some (.callPut ((f0 ++ fs.flatten).drop 6)))
    ∧ ((handleComplete cfg 2 (f0 ++ fs.flatten) rest
          (fun _ => ([], .normal))).1.countP (fun a => isCallbackAction a)
        = 1)
    ∧ ((f0 ++ fs.flatten).length ≥ 10 →
        (handleComplete cfg 1 (f0 ++ fs.flatten) rest
            (serveLoop cfg fuel)).1.head?
          = some (.callGet ((f0 ++ fs.flatten).drop 10)
              (beU32 (((f0 ++ fs.flatten).drop 6).take 4))))
    ∧ ((f0 ++ fs.flatten).length ≥ 10 →
        (handleComplete cfg 1 (f0 ++ fs.flatten) rest
            (fun _ => ([], .normal))).1.countP (fun a => isCallbackAction a)
          = 1)
    ∧ (∀ (fs2 : List Frame) (rest2 : List RecvResult),
        stillShort f0 fs2 (beU32 ((f0.drop 2).take 4)) = true →
        serveLoop cfg (fuel + 1)
            (.frame f0 :: (fs2.map .frame ++ .closed :: rest2))
          = ([Action.send [0x10, 0x80, 0x00, 0x00, 0x00, 0x00]],
             .normal)) := by
  have hn : ¬ f0.length < 6 := not_lt.mpr h6
  have hv2 : ¬ f0.getD 0 0 / 16 > 1 := not_lt.mpr hv
  have hml2 : ¬ beU32 ((f0.drop 2).take 4) > cfg.maxLen := not_lt.mpr hml
  have hsh : f0.length - 6 < beU32 ((f0.drop 2).take 4) := by omega
  have hlen : (f0 ++ fs.flatten).length = 6 + beU32 ((f0.drop 2).take 4) :=
    carriesExactly_length _ fs f0 hcar
  refine ⟨?_, ?_, ?_, ?_, ?_, ?_, ?_, ?_⟩
  · simp only [serveLoop]
    rw [if_neg hn]
    simp only [handleFrame]
    rw [if_neg hv2, if_neg hml2, if_pos hsh,
      assemble_carriesExactly _ fs f0 rest h6 hcar]
  · rw [List.length_drop, hlen]; omega
  · rw [List.length_drop, hlen]; omega
  · cases hp : putRequest cfg.putCb (f0 ++ fs.flatten) <;>
      simp [handleComplete, hp]
  · cases hp : putRequest cfg.putCb (f0 ++ fs.flatten) with
    | error e => simp [handleComplete, hp, isCallbackAction]
    | ok rsp =>
        simp [handleComplete, hp, List.countP_cons, isCallbackAction]
        intro a ha
        rcases afterDispatch_mem cfg rsp rest _ a ha with ⟨f, rfl⟩ | ⟨t, hmem⟩
        · rfl
        · simp at hmem
  · intro h10
    have h10b : 10 ≤ f0.length + (List.map List.length fs).sum := by
      simpa using h10
    cases hg : getRequest cfg.getCb (f0 ++ fs.flatten) <;>
      simp [handleComplete, hg, h10b]
  · intro h10
    have h10b : 10 ≤ f0.length + (List.map List.length fs).sum := by
      simpa using h10
    cases hg : getRequest cfg.getCb (f0 ++ fs.flatten) with
    | error e => simp [handleComplete, hg, h10b, isCallbackAction]
    | ok rsp =>
        simp [handleComplete, hg, h10b, List.countP_cons, isCallbackAction]
        intro a ha
        rcases afterDispatch_mem cfg rsp rest _ a ha with ⟨f, rfl⟩ | ⟨t, hmem⟩
        · rfl
        · simp at hmem
  · intro fs2 rest2 hss
    simp only [serveLoop]
    rw [if_neg hn]
    simp only [handleFrame]
    rw [if_neg hv2, if_neg hml2, if_pos hsh,
      assemble_stillShort _ fs2 f0 rest2 h6 hss]

/-- Witness for the amended C1: a PUT with L = 4 split into a
header-only fragment and one 4-byte fragment is continued with
`10 80 00 00 00 00`, assembled, and dispatched. -/
theorem C1_assembly_and_dispatch_witness :
    serveLoop cfgEx (0 + 1)
        (.frame [0x10, 0x02, 0x00, 0x00, 0x00, 0x04]
          :: (([[0xAA, 0xBB, 0xCC, 0xDD]] : List Frame).map RecvResult.frame
              ++ []))
      = (Action.send [0x10, 0x80, 0x00, 0x00, 0x00, 0x00]
           :: (handleComplete cfgEx
                (([0x10, 0x02, 0x00, 0x00, 0x00, 0x04] : Frame).getD 1 0)
                ([0x10, 0x02, 0x00, 0x00, 0x00, 0x04]
                  ++ ([[0xAA, 0xBB, 0xCC, 0xDD]] : List Frame).flatten) []
                (serveLoop cfgEx 0)).1,
         (handleComplete cfgEx
            (([0x10, 0x02, 0x00, 0x00, 0x00, 0x04] : Frame).getD 1 0)
            ([0x10, 0x02, 0x00, 0x00, 0x00, 0x04]
              ++ ([[0xAA, 0xBB, 0xCC, 0xDD]] : List Frame).flatten) []
            (serveLoop cfgEx 0)).2) :=
  (C1_assembly_and_dispatch cfgEx 0 [0x10, 0x02, 0x00, 0x00, 0x00, 0x04]
      [[0xAA, 0xBB, 0xCC, 0xDD]] [] (by decide) (by decide) (by decide)
      (by decide) (by decide)).1

end Snep
